import Mathlib

/-!
Verification of the event/connection dispatch primitive in `src/Event.hh`
(ignition::common::Event, Connection, EventT) against its specification.

The C++ code is shallowly embedded:
* `EventState` models one `EventT` object: the `signaled` flag inherited from
  `Event`, the ordered map `connections` (a `std::map<int, EventConnection>`,
  represented as an association list kept in ascending key order), the
  `connectionsToRemove` list (iterators are represented by the key of the
  entry they point to), and the id counter used by connection creation.
* `std::map::erase(iterator)` demands a valid, dereferenceable iterator; erasing
  through an iterator whose element was already erased is undefined behaviour.
  `Cleanup` therefore returns `Option`: `none` marks undefined behaviour.
* Callbacks are client code, not part of the event machinery.  They are embedded
  as programs over the event's own API: a list of `Act` actions (connect a new
  callback, disconnect an id, raise an error), drawn from an environment `env`
  that maps a callback index to its program.  `Signal` is fuel-indexed because
  a callback that keeps connecting self-connecting callbacks makes the C++
  loop diverge; `none` also covers fuel exhaustion.
* A `Signal` run returns the final state, the invocation trace (entry id,
  callback index, dispatch argument) and the error raised by a callback, if
  any; state mutated before the error is retained, as in C++ where the
  exception propagates out of `Signal` leaving the object mutated.
-/

/-- One value of the `EventConnection` helper class: `onFlag` is the atomic `on` flag and
the stored callback (represented by its index into the callback
environment). -/
structure EventConnection where
  onFlag : Bool
  callback : Nat
deriving DecidableEq, Repr

/-- State of one `EventT` object, including the `signaled` flag of its
`Event` base class.  `connections` is the `std::map` (ascending key order);
`connectionsToRemove` holds the queued iterators, each represented by the key
of the entry it points to.  `nextId` is the id counter used by connection
creation. -/
structure EventState where
  signaled : Bool
  connections : List (Int × EventConnection)
  connectionsToRemove : List Int
  nextId : Int
deriving DecidableEq, Repr

/-- A freshly constructed event: `Event::Event()` sets `signaled(false)`, the
containers start empty. -/
def initEvent : EventState := ⟨false, [], [], 0⟩

/-- `Event::Signaled`. -/
def Signaled (s : EventState) : Bool := s.signaled

/-- `Event::SetSignaled`. -/
def SetSignaled (s : EventState) (b : Bool) : EventState := { s with signaled := b }

/-- `EventT::ConnectionCount`: `connections.size()`. -/
def ConnectionCount (s : EventState) : Nat := s.connections.length

/-- Write `on := false` through the iterator found by `Disconnect`
(`it->second->on = false`); entries with a different key are untouched. -/
def disableAt (i : Int) (p : Int × EventConnection) : Int × EventConnection :=
  if p.1 == i then (p.1, ⟨false, p.2.callback⟩) else p

/-- `EventT::Disconnect`: find the connection; if found, set its `on` flag to
false and `push_back` the iterator onto `connectionsToRemove` (this happens
whether or not the entry was already disabled); if not found, do nothing. -/
def Disconnect (s : EventState) (i : Int) : EventState :=
  match s.connections.find? (fun p => p.1 == i) with
  | none => s
  | some _ =>
    { s with
      connections := s.connections.map (disableAt i),
      connectionsToRemove := s.connectionsToRemove ++ [i] }

/-- Modelled from the spec: `Connect` is absent from the sources (only
`Disconnect`, `ConnectionCount`, `Signal` and `Cleanup` appear in
`src/Event.hh`).  Per the spec it allocates `id = nextId++`, inserts
`{enabled: true, callback}` into the entries map and hands the id to the new
handle; `nextId` is monotonically increasing and never reused, so the new
entry's key is larger than every existing key and appending keeps the map
sorted. -/
def Connect (s : EventState) (k : Nat) : EventState × Int :=
  ({ s with
      connections := s.connections ++ [(s.nextId, ⟨true, k⟩)],
      nextId := s.nextId + 1 },
   s.nextId)

/-- `connections.erase(conn)` for one queued iterator: valid only while the
element it points to is still in the map; erasing an already-erased iterator is
undefined behaviour (`none`). -/
def eraseIter (l : List (Int × EventConnection)) (i : Int) :
    Option (List (Int × EventConnection)) :=
  if l.any (fun p => p.1 == i) then some (l.filter (fun p => !(p.1 == i))) else none

/-- The erase loop of `EventT::Cleanup`, iterator by iterator. -/
def cleanupFold : List Int → List (Int × EventConnection) →
    Option (List (Int × EventConnection))
  | [], l => some l
  | i :: rest, l =>
    match eraseIter l i with
    | none => none
    | some l2 => cleanupFold rest l2

/-- `EventT::Cleanup`: erase every queued connection, then clear the queue. -/
def Cleanup (s : EventState) : Option EventState :=
  (cleanupFold s.connectionsToRemove s.connections).map
    (fun l => { s with connections := l, connectionsToRemove := [] })

/-- One primitive action a callback (client code) can perform on the event
while it runs: connect a new callback (by its index in the environment),
disconnect an id, or raise an error. -/
inductive Act where
  | connect : Nat → Act
  | disconnect : Int → Act
  | raise : Int → Act
deriving DecidableEq, Repr

/-- Execute one callback action; `some e` in the second component is a raised
error. -/
def runAct (s : EventState) (a : Act) : EventState × Option Int :=
  match a with
  | .connect k => ((Connect s k).1, none)
  | .disconnect i => (Disconnect s i, none)
  | .raise e => (s, some e)

/-- Execute a callback body (a list of actions); an error aborts the rest of
the body but the state already mutated is retained, as with a C++ exception. -/
def runProg (s : EventState) : List Act → EventState × Option Int
  | [] => (s, none)
  | a :: rest =>
    match runAct s a with
    | (s2, none) => runProg s2 rest
    | (s2, some e) => (s2, some e)

/-- Result of a `Signal` run: the final event state, the invocation trace
(entry id, callback index, dispatch argument), and the error the pass
propagated, if any. -/
structure SigResult where
  state : EventState
  trace : List (Int × Nat × Int)
  err : Option Int
deriving DecidableEq, Repr

/-- Did the iterator already pass position `j`?  `afterLast last i` is true
when entry `i` is still ahead of the loop: initially every entry is ahead;
after visiting `j`, exactly the keys greater than `j` are. -/
def afterLast : Option Int → Int → Bool
  | none, _ => true
  | some j, i => decide (j < i)

/-- The range-for of `EventT::Signal`.  A `std::map` iterator `++` moves to
the entry with the smallest key greater than the current one in the live map
(callbacks may insert or disable entries but never erase, so the iterator
stays valid); on the sorted association list that is the first entry whose
key is past `last`.  For each entry whose `on` flag reads true at that
moment the callback runs; an error it raises ends the pass at once.  Fuel
bounds the number of loop iterations (`none` = fuel exhausted, which in C++
is a diverging loop). -/
def signalLoop (env : List (List Act)) (x : Int) :
    Nat → Option Int → EventState → List (Int × Nat × Int) → Option SigResult
  | 0, _, _, _ => none
  | fuel + 1, last, s, tr =>
    match s.connections.find? (fun p => afterLast last p.1) with
    | none => some ⟨s, tr, none⟩
    | some (i, c) =>
      if c.onFlag then
        match runProg s (env.getD c.callback []) with
        | (s2, none) => signalLoop env x fuel (some i) s2 (tr ++ [(i, c.callback, x)])
        | (s2, some e) => some ⟨s2, tr ++ [(i, c.callback, x)], some e⟩
      else
        signalLoop env x fuel (some i) s tr

/-- `EventT::Signal`: run `Cleanup`, call `SetSignaled(true)`, then iterate
the connections invoking every enabled callback with the argument. -/
def Signal (env : List (List Act)) (fuel : Nat) (x : Int) (s : EventState) :
    Option SigResult :=
  match Cleanup s with
  | none => none
  | some s1 => signalLoop env x fuel none (SetSignaled s1 true) []

/-- `entryDisabled s i` holds when id `i` is a key of the map and its entry's
`on` flag is false (keys are unique in every reachable state, so this is the
entry a queued iterator for `i` refers to). -/
def entryDisabled (s : EventState) (i : Int) : Bool :=
  s.connections.any (fun p => p.1 == i && !p.2.onFlag)

/-- The part of the spec's state invariant that the code maintains: every id
queued for removal is a key of the map and its entry is disabled. -/
def WInvB (s : EventState) : Bool :=
  s.connectionsToRemove.all (entryDisabled s)

/-- The spec's full state invariant: the pending-removal collection is a set
(no id twice), every queued id is a key of the map, and each such entry is
disabled. -/
def FullInv (s : EventState) : Prop :=
  s.connectionsToRemove.Nodup ∧ WInvB s = true

/-- A world with one event object, for lifetime questions: `eventAlive` is
whether the `EventT` object still exists; `ev` is its state.  `EventT`'s
destructor clears the connection map and ends the object's lifetime; it does
not notify outstanding `Connection` handles. -/
structure World where
  eventAlive : Bool
  ev : EventState
deriving DecidableEq, Repr

/-- A `Connection` handle as its destructor sees it: `bound` is whether the
stored `Event*` is non-null (it stays non-null after the event is destroyed,
since nothing clears it), and `id` is the stored id. -/
structure ConnHandle where
  bound : Bool
  id : Int
deriving DecidableEq, Repr

/-- `EventT::~EventT`: `connections.clear()`, then the object is gone. -/
def eventDtor (w : World) : World :=
  ⟨false, { w.ev with connections := [] }⟩

/-- `Connection::~Connection`: if the stored event pointer is non-null and the
id is non-negative, call `event->Disconnect(id)` and become inert
(`id = -1`, `event = nullptr`); otherwise do nothing.  Dereferencing the
event pointer when the event object was already destroyed is undefined
behaviour (`none`). -/
def connDtor (w : World) (c : ConnHandle) : Option (World × ConnHandle) :=
  if c.bound && decide (0 ≤ c.id) then
    if w.eventAlive then
      some (⟨w.eventAlive, Disconnect w.ev c.id⟩, ⟨false, -1⟩)
    else
      none
  else
    some (w, c)

/-! ## Helper lemmas -/

/-- Disabling through an iterator never changes an entry's key. -/
theorem disableAt_fst (i : Int) (p : Int × EventConnection) :
    (disableAt i p).1 = p.1 := by
  unfold disableAt
  split <;> rfl

/-- `Disconnect` does not touch the `signaled` flag. -/
theorem signaled_Disconnect (s : EventState) (i : Int) :
    (Disconnect s i).signaled = s.signaled := by
  unfold Disconnect
  split <;> rfl

/-- `Disconnect` does not touch the id counter. -/
theorem nextId_Disconnect (s : EventState) (i : Int) :
    (Disconnect s i).nextId = s.nextId := by
  unfold Disconnect
  split <;> rfl

/-- Searching a key after the disable pass of `Disconnect` finds what the
original search found, with the disable applied. -/
theorem find?_map_disableAt (l : List (Int × EventConnection)) (i j : Int) :
    (l.map (disableAt i)).find? (fun p => p.1 == j)
      = (l.find? (fun p => p.1 == j)).map (disableAt i) := by
  rw [List.find?_map]
  have hpred : ((fun p : Int × EventConnection => p.1 == j) ∘ disableAt i)
      = (fun p : Int × EventConnection => p.1 == j) := by
    funext q
    simp [Function.comp, disableAt_fst]
  rw [hpred]

/-- A disabled entry stays present and disabled across any `Disconnect`. -/
theorem entryDisabled_Disconnect (s : EventState) (i j : Int)
    (h : entryDisabled s j = true) : entryDisabled (Disconnect s i) j = true := by
  unfold Disconnect
  split
  case h_1 => exact h
  case h_2 q hq =>
    simp only [entryDisabled, List.any_eq_true, Bool.and_eq_true, beq_iff_eq,
      Bool.not_eq_true'] at h ⊢
    obtain ⟨p, hp, hkey, hon⟩ := h
    refine ⟨disableAt i p, List.mem_map_of_mem _ hp, ?_, ?_⟩
    · rw [disableAt_fst]; exact hkey
    · unfold disableAt
      split <;> simp [hon]

/-- The entry `Disconnect` found is disabled in the resulting state. -/
theorem entryDisabled_Disconnect_self (s : EventState) (i : Int)
    (q : Int × EventConnection)
    (h : s.connections.find? (fun p => p.1 == i) = some q) :
    entryDisabled (Disconnect s i) i = true := by
  have hq : q.1 = i := by
    have h2 := List.find?_some h
    simpa using h2
  have hmem : q ∈ s.connections := List.mem_of_find?_eq_some h
  unfold Disconnect
  rw [h]
  simp only [entryDisabled, List.any_eq_true, Bool.and_eq_true, beq_iff_eq,
    Bool.not_eq_true']
  refine ⟨disableAt i q, List.mem_map_of_mem _ hmem, ?_, ?_⟩
  · rw [disableAt_fst]; exact hq
  · simp [disableAt, hq]

/-- A disabled entry stays present and disabled across a `Connect`. -/
theorem entryDisabled_Connect (s : EventState) (k : Nat) (j : Int)
    (h : entryDisabled s j = true) : entryDisabled (Connect s k).1 j = true := by
  simp only [entryDisabled, List.any_eq_true, Bool.and_eq_true, beq_iff_eq,
    Bool.not_eq_true'] at h ⊢
  obtain ⟨p, hp, hkey, hon⟩ := h
  exact ⟨p, List.mem_append_left _ hp, hkey, hon⟩

/-- `Disconnect` preserves the maintained part of the invariant. -/
theorem WInvB_Disconnect (s : EventState) (i : Int)
    (h : WInvB s = true) : WInvB (Disconnect s i) = true := by
  simp only [WInvB, List.all_eq_true] at h ⊢
  intro j hj
  have hqueue : (Disconnect s i).connectionsToRemove = s.connectionsToRemove
      ∨ (Disconnect s i).connectionsToRemove = s.connectionsToRemove ++ [i] := by
    unfold Disconnect
    split
    · exact Or.inl rfl
    · exact Or.inr rfl
  rcases hqueue with hq | hq
  · rw [hq] at hj
    exact entryDisabled_Disconnect s i j (h j hj)
  · rw [hq] at hj
    rcases List.mem_append.mp hj with hj1 | hj2
    · exact entryDisabled_Disconnect s i j (h j hj1)
    · have hji : j = i := List.mem_singleton.mp hj2
      subst hji
      by_cases hf : ∃ q, s.connections.find? (fun p => p.1 == j) = some q
      · obtain ⟨q, hfq⟩ := hf
        exact entryDisabled_Disconnect_self s j q hfq
      · exfalso
        unfold Disconnect at hq
        rcases hfind : s.connections.find? (fun p => p.1 == j) with _ | q
        · rw [hfind] at hq
          simp at hq
        · exact hf ⟨q, hfind⟩

/-- `Connect` preserves the maintained part of the invariant. -/
theorem WInvB_Connect (s : EventState) (k : Nat)
    (h : WInvB s = true) : WInvB (Connect s k).1 = true := by
  simp only [WInvB, List.all_eq_true] at h ⊢
  intro j hj
  exact entryDisabled_Connect s k j (h j hj)

/-- Any single callback action preserves the maintained invariant. -/
theorem WInvB_runAct (s : EventState) (a : Act)
    (h : WInvB s = true) : WInvB (runAct s a).1 = true := by
  cases a with
  | connect k => exact WInvB_Connect s k h
  | disconnect i => exact WInvB_Disconnect s i h
  | raise e => exact h

/-- A whole callback body preserves the maintained invariant, whether or not
it raises. -/
theorem WInvB_runProg (prog : List Act) (s : EventState)
    (h : WInvB s = true) : WInvB (runProg s prog).1 = true := by
  induction prog generalizing s with
  | nil => exact h
  | cons a rest ih =>
    unfold runProg
    rcases hra : runAct s a with ⟨s2, e?⟩
    have h2 : WInvB s2 = true := by
      have := WInvB_runAct s a h
      rw [hra] at this
      exact this
    cases e? with
    | none => simpa using ih s2 h2
    | some e => simpa using h2

/-- The dispatch loop preserves the maintained invariant. -/
theorem WInvB_signalLoop (env : List (List Act)) (x : Int) (fuel : Nat) :
    ∀ (last : Option Int) (s : EventState) (tr : List (Int × Nat × Int))
      (r : SigResult), signalLoop env x fuel last s tr = some r →
      WInvB s = true → WInvB r.state = true := by
  induction fuel with
  | zero => intro last s tr r hr _; simp [signalLoop] at hr
  | succ n ih =>
    intro last s tr r hr hs
    unfold signalLoop at hr
    split at hr
    · cases hr
      exact hs
    · rename_i i c hf
      split at hr
      · split at hr
        · rename_i s2 hrp
          have h2 : WInvB s2 = true := by
            have h3 := WInvB_runProg (env.getD c.callback []) s hs
            rw [hrp] at h3
            exact h3
          exact ih (some i) s2 (tr ++ [(i, c.callback, x)]) r hr h2
        · rename_i s2 e hrp
          cases hr
          have h3 := WInvB_runProg (env.getD c.callback []) s hs
          rw [hrp] at h3
          exact h3
      · exact ih (some i) s tr r hr hs

/-- Whatever `Cleanup` returns has an empty removal queue, hence satisfies the
maintained invariant. -/
theorem WInvB_Cleanup (s s2 : EventState) (h : Cleanup s = some s2) :
    WInvB s2 = true := by
  unfold Cleanup at h
  rcases hc : cleanupFold s.connectionsToRemove s.connections with _ | l
  · rw [hc] at h; simp at h
  · rw [hc] at h
    simp at h
    rw [← h]
    rfl

/-- A completed `Signal` leaves the maintained invariant holding. -/
theorem WInvB_Signal (env : List (List Act)) (fuel : Nat) (x : Int)
    (s : EventState) (r : SigResult) (h : Signal env fuel x s = some r) :
    WInvB r.state = true := by
  unfold Signal at h
  rcases hc : Cleanup s with _ | s1
  · rw [hc] at h; simp at h
  · rw [hc] at h
    have h1 : WInvB s1 = true := WInvB_Cleanup s s1 hc
    exact WInvB_signalLoop env x fuel none (SetSignaled s1 true) [] r h h1

/-- `Connect` does not touch the `signaled` flag. -/
theorem signaled_Connect (s : EventState) (k : Nat) :
    (Connect s k).1.signaled = s.signaled := rfl

/-- A single callback action does not touch the `signaled` flag. -/
theorem signaled_runAct (s : EventState) (a : Act) :
    (runAct s a).1.signaled = s.signaled := by
  cases a with
  | connect k => rfl
  | disconnect i => exact signaled_Disconnect s i
  | raise e => rfl

/-- A whole callback body does not touch the `signaled` flag. -/
theorem signaled_runProg (prog : List Act) (s : EventState) :
    (runProg s prog).1.signaled = s.signaled := by
  induction prog generalizing s with
  | nil => rfl
  | cons a rest ih =>
    unfold runProg
    rcases hra : runAct s a with ⟨s2, e?⟩
    have h2 : s2.signaled = s.signaled := by
      have h3 := signaled_runAct s a
      rw [hra] at h3
      exact h3
    cases e? with
    | none => simpa [h2] using ih s2
    | some e => simpa using h2

/-- The dispatch loop keeps the `signaled` flag it started with. -/
theorem signaled_signalLoop (env : List (List Act)) (x : Int) (fuel : Nat) :
    ∀ (last : Option Int) (s : EventState) (tr : List (Int × Nat × Int))
      (r : SigResult), signalLoop env x fuel last s tr = some r →
      r.state.signaled = s.signaled := by
  induction fuel with
  | zero => intro last s tr r hr; simp [signalLoop] at hr
  | succ n ih =>
    intro last s tr r hr
    unfold signalLoop at hr
    split at hr
    · cases hr
      rfl
    · rename_i i c hf
      split at hr
      · split at hr
        · rename_i s2 hrp
          have h2 : s2.signaled = s.signaled := by
            have h3 := signaled_runProg (env.getD c.callback []) s
            rw [hrp] at h3
            exact h3
          rw [ih (some i) s2 (tr ++ [(i, c.callback, x)]) r hr]
          exact h2
        · rename_i s2 e hrp
          cases hr
          have h3 := signaled_runProg (env.getD c.callback []) s
          rw [hrp] at h3
          exact h3
      · exact ih (some i) s tr r hr

/-- A completed `Signal` run leaves the flag set. -/
theorem signaled_Signal (env : List (List Act)) (fuel : Nat) (x : Int)
    (s : EventState) (r : SigResult) (h : Signal env fuel x s = some r) :
    r.state.signaled = true := by
  unfold Signal at h
  split at h
  · exact absurd h (by simp)
  · rename_i s1 hc
    exact signaled_signalLoop env x fuel none (SetSignaled s1 true) [] r h

/-- On a visited position, `afterLast` means strictly past it. -/
theorem lt_of_afterLast (j i : Int) (h : afterLast (some j) i = true) : j < i := by
  simpa [afterLast] using h

/-- The ids recorded by the dispatch loop are strictly increasing: each newly
visited entry lies strictly past the last visited position. -/
theorem trace_ascending_signalLoop (env : List (List Act)) (x : Int)
    (fuel : Nat) :
    ∀ (last : Option Int) (s : EventState) (tr : List (Int × Nat × Int))
      (r : SigResult), signalLoop env x fuel last s tr = some r →
      List.Chain' (fun a b : Int => a < b) (tr.map (fun t => t.1)) →
      (last = none → tr = []) →
      (∀ j : Int, last = some j → ∀ t ∈ tr, t.1 ≤ j) →
      List.Chain' (fun a b : Int => a < b) (r.trace.map (fun t => t.1)) := by
  induction fuel with
  | zero => intro last s tr r hr _ _ _; simp [signalLoop] at hr
  | succ n ih =>
    intro last s tr r hr hchain hnone hbound
    unfold signalLoop at hr
    split at hr
    · cases hr
      exact hchain
    · rename_i i c hf
      have hafter : afterLast last i = true := by
        have h2 := List.find?_some hf
        simpa using h2
      have htrlt : ∀ t ∈ tr, t.1 < i := by
        intro t ht
        cases last with
        | none =>
          rw [hnone rfl] at ht
          simp at ht
        | some j =>
          have h1 := hbound j rfl t ht
          have h2 := lt_of_afterLast j i hafter
          omega
      have hext : List.Chain' (fun a b : Int => a < b)
          ((tr ++ [(i, c.callback, x)]).map (fun t => t.1)) := by
        rw [List.map_append, List.chain'_append]
        refine ⟨hchain, List.chain'_singleton _, ?_⟩
        intro y hy z hz
        have hz2 : i = z := by simpa using hz
        have hy2 : y ∈ tr.map (fun t => t.1) := List.mem_of_mem_getLast? hy
        rcases List.mem_map.mp hy2 with ⟨t, ht, hty⟩
        rw [← hz2, ← hty]
        exact htrlt t ht
      have hboundext : ∀ j : Int, some i = some j →
          ∀ t ∈ tr ++ [(i, c.callback, x)], t.1 ≤ j := by
        intro j hj t ht
        cases hj
        rcases List.mem_append.mp ht with h1 | h2
        · exact le_of_lt (htrlt t h1)
        · simp [List.mem_singleton.mp h2]
      split at hr
      · split at hr
        · rename_i s2 hrp
          exact ih (some i) s2 (tr ++ [(i, c.callback, x)]) r hr hext
            (by intro h2; cases h2) hboundext
        · rename_i s2 e hrp
          cases hr
          exact hext
      · refine ih (some i) s tr r hr hchain (by intro h2; cases h2) ?_
        intro j hj t ht
        cases hj
        exact le_of_lt (htrlt t ht)

/-- A completed `Signal` invokes entries in strictly ascending id order. -/
theorem trace_ascending_Signal (env : List (List Act)) (fuel : Nat) (x : Int)
    (s : EventState) (r : SigResult) (h : Signal env fuel x s = some r) :
    List.Chain' (fun a b : Int => a < b) (r.trace.map (fun t => t.1)) := by
  unfold Signal at h
  split at h
  · exact absurd h (by simp)
  · rename_i s1 hc
    refine trace_ascending_signalLoop env x fuel none (SetSignaled s1 true) [] r h
      (by simp) (fun _ => rfl) ?_
    intro j hj
    cases hj

/-- Destroying an inert handle (null event pointer or negative id) performs no
revocation: the destructor takes its empty branch and every state is left
unchanged. -/
theorem connDtor_inert (w : World) (c : ConnHandle)
    (h : c.bound = false ∨ c.id < 0) : connDtor w c = some (w, c) := by
  rcases h with h | h
  · simp [connDtor, h]
  · simp [connDtor, not_le.mpr h]

/-- `Disconnect` on a found id: disable the entry and queue the iterator. -/
theorem Disconnect_of_found (s : EventState) (i : Int)
    (q : Int × EventConnection)
    (h : s.connections.find? (fun p => p.1 == i) = some q) :
    Disconnect s i
      = { s with connections := s.connections.map (disableAt i),
                 connectionsToRemove := s.connectionsToRemove ++ [i] } := by
  unfold Disconnect
  rw [h]

/-- `Disconnect` on an absent id does nothing. -/
theorem Disconnect_of_absent (s : EventState) (i : Int)
    (h : s.connections.find? (fun p => p.1 == i) = none) :
    Disconnect s i = s := by
  unfold Disconnect
  rw [h]

/-! ## Claim theorems -/

/-- C1 (amended): dropping a live handle performs exactly `Disconnect` with
its id on the event and makes the handle inert, but performing both
revocations performs the disconnect twice: the id is appended to the removal
queue a second time, so the resulting state is not the state of a single
revocation. -/
theorem evtC1 :
    (∀ (w : World) (c : ConnHandle), c.bound = true → 0 ≤ c.id →
      w.eventAlive = true →
      connDtor w c = some (⟨true, Disconnect w.ev c.id⟩, ⟨false, -1⟩))
    ∧ ∀ (s : EventState) (i : Int) (q : Int × EventConnection),
        s.connections.find? (fun p => p.1 == i) = some q →
        (Disconnect (Disconnect s i) i).connectionsToRemove
          = (s.connectionsToRemove ++ [i]) ++ [i] := by
  constructor
  · intro w c hb hid ha
    simp [connDtor, hb, hid, ha]
  · intro s i q h
    have h2 : (Disconnect s i).connections.find? (fun p => p.1 == i)
        = some (disableAt i q) := by
      rw [Disconnect_of_found s i q h]
      show (s.connections.map (disableAt i)).find? (fun p => p.1 == i)
        = some (disableAt i q)
      rw [find?_map_disableAt, h]
      rfl
    rw [Disconnect_of_found (Disconnect s i) i (disableAt i q) h2]
    show (Disconnect s i).connectionsToRemove ++ [i]
      = (s.connectionsToRemove ++ [i]) ++ [i]
    rw [Disconnect_of_found s i q h]

/-- C1, counterexample to the claim as stated: after `Disconnect(0)`,
destroying the still-bound handle for id 0 leaves the event in a state
different from the single-revocation state (the removal queue now holds the
id twice). -/
theorem evtC1_cex :
    (connDtor ⟨true, Disconnect (Connect initEvent 0).1 0⟩ ⟨true, 0⟩).map
        (fun p => p.1.ev)
      ≠ some (Disconnect (Connect initEvent 0).1 0) := by decide

/-- C1, witness: both parts of the amended theorem applied at a concrete
input. -/
theorem evtC1_witness :
    connDtor ⟨true, initEvent⟩ ⟨true, 0⟩
        = some (⟨true, Disconnect initEvent 0⟩, ⟨false, -1⟩)
    ∧ (Disconnect (Disconnect (Connect initEvent 0).1 0) 0).connectionsToRemove
        = ([] ++ [0]) ++ [0] :=
  ⟨evtC1.1 ⟨true, initEvent⟩ ⟨true, 0⟩ rfl (by decide) rfl,
   evtC1.2 (Connect initEvent 0).1 0 (0, ⟨true, 0⟩) rfl⟩

/-- C2 (amended): `Disconnect` on an absent id leaves the state unchanged; on
a present id it disables the entry and appends the iterator to the removal
queue whether or not the entry was already disabled (so a second `Disconnect`
of the same id queues it again), touching neither the `signaled` flag, the id
counter, nor entries with other keys. -/
theorem evtC2 : ∀ (s : EventState) (i : Int),
    (s.connections.find? (fun p => p.1 == i) = none → Disconnect s i = s)
    ∧ ∀ q, s.connections.find? (fun p => p.1 == i) = some q →
        (Disconnect s i).connectionsToRemove = s.connectionsToRemove ++ [i]
        ∧ entryDisabled (Disconnect s i) i = true
        ∧ (Disconnect s i).signaled = s.signaled
        ∧ (Disconnect s i).nextId = s.nextId
        ∧ ∀ j, j ≠ i → (Disconnect s i).connections.find? (fun p => p.1 == j)
              = s.connections.find? (fun p => p.1 == j) := by
  intro s i
  constructor
  · intro h
    exact Disconnect_of_absent s i h
  · intro q h
    refine ⟨?_, entryDisabled_Disconnect_self s i q h,
      signaled_Disconnect s i, nextId_Disconnect s i, ?_⟩
    · rw [Disconnect_of_found s i q h]
    · intro j hj
      rw [Disconnect_of_found s i q h]
      show (s.connections.map (disableAt i)).find? (fun p => p.1 == j)
        = s.connections.find? (fun p => p.1 == j)
      rw [find?_map_disableAt]
      rcases hf : s.connections.find? (fun p => p.1 == j) with _ | q2
      · rw [hf]
        rfl
      · rw [hf]
        have hq2 : q2.1 = j := by
          have h3 := List.find?_some hf
          simpa using h3
        show some (disableAt i q2) = some q2
        have : disableAt i q2 = q2 := by
          unfold disableAt
          rw [if_neg]
          simp [hq2, hj]
        rw [this]

/-- C2, counterexample to the claim as stated: `Disconnect` on a present but
already-disabled id does mutate the state (the iterator is queued again). -/
theorem evtC2_cex :
    Disconnect (Disconnect (Connect initEvent 0).1 0) 0
      ≠ Disconnect (Connect initEvent 0).1 0 := by decide

/-- C2, witness: the amended theorem applied at concrete inputs (absent id,
then a present enabled id). -/
theorem evtC2_witness :
    Disconnect initEvent 5 = initEvent
    ∧ (Disconnect (Connect initEvent 0).1 0).connectionsToRemove = [] ++ [0] :=
  ⟨(evtC2 initEvent 5).1 rfl,
   ((evtC2 (Connect initEvent 0).1 0).2 (0, ⟨true, 0⟩) rfl).1⟩

/-- C3 (amended): every operation preserves the part of the invariant the
code maintains — each id queued for removal is a key of the entries map and
its entry is disabled — but the queue is not kept duplicate-free, so the
claimed set property fails (see the counterexample). -/
theorem evtC3 :
    (∀ (s : EventState) (i : Int), WInvB s = true → WInvB (Disconnect s i) = true)
    ∧ (∀ (s : EventState) (k : Nat), WInvB s = true → WInvB (Connect s k).1 = true)
    ∧ (∀ (s s2 : EventState), Cleanup s = some s2 → WInvB s2 = true)
    ∧ (∀ (env : List (List Act)) (fuel : Nat) (x : Int) (s : EventState)
        (r : SigResult), Signal env fuel x s = some r → WInvB r.state = true) :=
  ⟨WInvB_Disconnect, WInvB_Connect, WInvB_Cleanup, WInvB_Signal⟩

/-- C3, counterexample to the claim as stated: a state satisfying the full
invariant (queue a duplicate-free set of disabled present ids) on which
`Disconnect` of an already-queued id yields a queue containing that id
twice. -/
theorem evtC3_cex :
    FullInv (Disconnect (Connect initEvent 0).1 0)
    ∧ ¬ FullInv (Disconnect (Disconnect (Connect initEvent 0).1 0) 0) := by
  unfold FullInv
  decide

/-- C3, witness: preservation applied at a concrete state. -/
theorem evtC3_witness :
    WInvB (Disconnect (⟨false, [(0, ⟨true, 0⟩)], [], 1⟩ : EventState) 0) = true :=
  evtC3.1 ⟨false, [(0, ⟨true, 0⟩)], [], 1⟩ 0 rfl

/-- C4 (amended): the handle destructor checks only that its stored event
pointer is non-null and the id non-negative, not that the event is alive;
event destruction clears the event's own map but does not clear outstanding
handles, so destroying a still-bound handle after its event was destroyed
dereferences the destroyed event (undefined behaviour).  Only an already
inert handle is safe to destroy after the event is gone. -/
theorem evtC4 :
    (∀ (w : World) (c : ConnHandle), c.bound = true → 0 ≤ c.id →
      w.eventAlive = false → connDtor w c = none)
    ∧ (∀ w : World, (eventDtor w).ev.connections = []
        ∧ (eventDtor w).eventAlive = false)
    ∧ (∀ (w : World) (c : ConnHandle), c.bound = false ∨ c.id < 0 →
        connDtor (eventDtor w) c = some (eventDtor w, c)) := by
  refine ⟨?_, ?_, ?_⟩
  · intro w c hb hid ha
    simp [connDtor, hb, hid, ha]
  · intro w
    exact ⟨rfl, rfl⟩
  · intro w c h
    exact connDtor_inert (eventDtor w) c h

/-- C4, counterexample to the claim as stated: destroy the event, then
destroy a handle that is still bound to it — the destructor passes its
null/negative check and dereferences the destroyed event. -/
theorem evtC4_cex :
    connDtor (eventDtor ⟨true, (Connect initEvent 0).1⟩) ⟨true, 0⟩ = none := rfl

/-- C4, witness: the amended theorem applied at concrete inputs. -/
theorem evtC4_witness :
    connDtor ⟨false, initEvent⟩ ⟨true, 2⟩ = none
    ∧ connDtor (eventDtor ⟨true, initEvent⟩) ⟨false, -1⟩
        = some (eventDtor ⟨true, initEvent⟩, ⟨false, -1⟩) :=
  ⟨evtC4.1 ⟨false, initEvent⟩ ⟨true, 2⟩ rfl (by decide) rfl,
   evtC4.2.2 ⟨true, initEvent⟩ ⟨false, -1⟩ (Or.inl rfl)⟩

/-- Callback environment in which callback 0 connects a new callback while
the dispatch pass runs. -/
def insEnv : List (List Act) := [[Act.connect 1], []]

/-- C5 (amended): the in-flight pass iterates the live map, not a snapshot of
the ids present at its start: a connection inserted by a callback while the
pass executes has an id beyond the current iteration position and is invoked
by the very pass that is in flight. -/
theorem evtC5 : ∀ x : Int,
    Signal insEnv 5 x (Connect initEvent 0).1
      = some ⟨⟨true, [(0, ⟨true, 0⟩), (1, ⟨true, 1⟩)], [], 2⟩,
          [(0, 0, x), (1, 1, x)], none⟩ :=
  fun _ => rfl

/-- C5, counterexample to the claim as stated: id 1 is absent when the pass
starts, is connected by callback 0 during the pass, and is nevertheless
invoked by the same pass (second trace entry). -/
theorem evtC5_cex :
    (Connect initEvent 0).1.connections.find? (fun p => p.1 == 1) = none
    ∧ Signal insEnv 5 99 (Connect initEvent 0).1
      = some ⟨⟨true, [(0, ⟨true, 0⟩), (1, ⟨true, 1⟩)], [], 2⟩,
          [(0, 0, 99), (1, 1, 99)], none⟩ := ⟨rfl, rfl⟩

/-- C6 (amended): the `signaled` flag starts false, a completed `Signal` run
leaves it true, and neither `Connect` nor `Disconnect` (nor the query
operations) changes it — but it is not monotone against every public
operation of the event, since an explicit `SetSignaled(false)` call resets it
(see the counterexample). -/
theorem evtC6 :
    Signaled initEvent = false
    ∧ (∀ (s : EventState) (k : Nat), Signaled (Connect s k).1 = Signaled s)
    ∧ (∀ (s : EventState) (i : Int), Signaled (Disconnect s i) = Signaled s)
    ∧ (∀ (env : List (List Act)) (fuel : Nat) (x : Int) (s : EventState)
        (r : SigResult), Signal env fuel x s = some r →
        Signaled r.state = true) :=
  ⟨rfl, fun _ _ => rfl, fun s i => signaled_Disconnect s i,
   fun env fuel x s r h => signaled_Signal env fuel x s r h⟩

/-- C6, counterexample to the claim as stated: `SetSignaled` is a public
operation of the event, and calling it with `false` resets a set flag. -/
theorem evtC6_cex :
    Signaled (SetSignaled initEvent true) = true
    ∧ Signaled (SetSignaled (SetSignaled initEvent true) false) = false :=
  ⟨rfl, rfl⟩

/-- C6, witness: a completed `Signal` run on the fresh event leaves the flag
set. -/
theorem evtC6_witness : Signaled (⟨true, [], [], 0⟩ : EventState) = true :=
  evtC6.2.2.2 [] 1 0 initEvent ⟨⟨true, [], [], 0⟩, [], none⟩ rfl

/-- In a strictly increasing integer list, every element is at most the
last one. -/
theorem le_getLast_of_chain_lt :
    ∀ (l : List Int) (b : Int), List.Chain' (fun a b : Int => a < b) l →
      l.getLast? = some b → ∀ a ∈ l, a ≤ b := by
  intro l
  induction l with
  | nil =>
    intro b _ _ a ha
    simp at ha
  | cons a0 rest ih =>
    intro b hchain hlast a ha
    cases rest with
    | nil =>
      have hb : a0 = b := by simpa using hlast
      have ha0 : a = a0 := by simpa using ha
      rw [ha0, hb]
    | cons a1 rest2 =>
      have h01 : a0 < a1 := (List.chain'_cons.mp hchain).1
      have hchain2 := (List.chain'_cons.mp hchain).2
      have hlast2 : (a1 :: rest2).getLast? = some b := by
        rw [← List.getLast?_cons_cons (a := a0)]
        exact hlast
      rcases List.mem_cons.mp ha with h | h
      · have ha1 : a1 ≤ b :=
          ih b hchain2 hlast2 a1 (List.mem_cons_self a1 rest2)
        omega
      · exact ih b hchain2 hlast2 a h

/-- An erroring dispatch loop run ends at the raising callback: at some
iterator position the loop found an enabled entry, ran its callback, the
callback raised exactly the returned error, and the loop returned that
callback's post-state at once, the trace ending at that invocation. -/
theorem signalLoop_err (env : List (List Act)) (x : Int) (fuel : Nat) :
    ∀ (last : Option Int) (s : EventState) (tr : List (Int × Nat × Int))
      (r : SigResult) (e : Int), signalLoop env x fuel last s tr = some r →
      r.err = some e →
      ∃ (last2 : Option Int) (sp : EventState) (i : Int) (c : EventConnection),
        sp.connections.find? (fun p => afterLast last2 p.1) = some (i, c)
        ∧ c.onFlag = true
        ∧ runProg sp (env.getD c.callback []) = (r.state, some e)
        ∧ r.trace.getLast? = some (i, c.callback, x) := by
  induction fuel with
  | zero => intro last s tr r e hr _; simp [signalLoop] at hr
  | succ n ih =>
    intro last s tr r e hr herr
    unfold signalLoop at hr
    split at hr
    · cases hr
      simp at herr
    · rename_i i c hf
      split at hr
      · rename_i hon
        split at hr
        · rename_i s2 hrp
          exact ih (some i) s2 (tr ++ [(i, c.callback, x)]) r e hr herr
        · rename_i s2 e2 hrp
          cases hr
          have he : e2 = e := by simpa using herr
          subst he
          refine ⟨last, s, i, c, hf, hon, hrp, ?_⟩
          show (tr ++ [(i, c.callback, x)]).getLast? = some (i, c.callback, x)
          exact List.getLast?_concat _
      · exact ih (some i) s tr r e hr herr

/-- An erroring `Signal` run ends at the raising callback, returning exactly
the raised error together with that callback's post-state. -/
theorem signal_err (env : List (List Act)) (fuel : Nat) (x : Int)
    (s : EventState) (r : SigResult) (e : Int)
    (h : Signal env fuel x s = some r) (herr : r.err = some e) :
    ∃ (last2 : Option Int) (sp : EventState) (i : Int) (c : EventConnection),
      sp.connections.find? (fun p => afterLast last2 p.1) = some (i, c)
      ∧ c.onFlag = true
      ∧ runProg sp (env.getD c.callback []) = (r.state, some e)
      ∧ r.trace.getLast? = some (i, c.callback, x) := by
  unfold Signal at h
  split at h
  · exact absurd h (by simp)
  · rename_i s1 hc
    exact signalLoop_err env x fuel none (SetSignaled s1 true) [] r e h herr

/-- Callback environment for the error-propagation scenario: callback 0
connects a new callback, callback 1 raises the error `e`, index 2 holds an
arbitrary never-reached program. -/
def errEnv (e : Int) (p : List Act) : List (List Act) :=
  [[Act.connect 3], [Act.raise e], p]

/-- C7: whenever a completed `Signal` pass returns an error, that error is
exactly the one raised by the last invoked callback, the pass ends with that
invocation (the returned state is that callback's post-state — nothing is
rolled back — and the `signaled` flag set during the pass is retained), and
no remaining entry past the raising position is invoked.  The concrete runs
then exhibit the retained mutations: the first starts with entries 0, 1, 2
plus arbitrary further entries, the second with a pending removal that
cleanup erases before the error; in both, the pass stops at the raiser and
keeps the cleanup erasure, the flag and the earlier callback's insertion. -/
theorem evtC7 :
    (∀ (env : List (List Act)) (fuel : Nat) (x : Int) (s : EventState)
      (r : SigResult) (e : Int),
      Signal env fuel x s = some r → r.err = some e →
      (∃ (last2 : Option Int) (sp : EventState) (i : Int)
        (c : EventConnection),
        sp.connections.find? (fun p => afterLast last2 p.1) = some (i, c)
        ∧ c.onFlag = true
        ∧ runProg sp (env.getD c.callback []) = (r.state, some e)
        ∧ r.trace.getLast? = some (i, c.callback, x))
      ∧ r.state.signaled = true
      ∧ ∀ u, u ∈ r.trace.getLast? → ∀ p ∈ r.state.connections, u.1 < p.1 →
          ∀ t ∈ r.trace, ¬ t.1 = p.1)
    ∧ ∀ (e x : Int) (p : List Act) (tail : List (Int × EventConnection)),
      Signal (errEnv e p) 5 x
          ⟨false, (0, ⟨true, 0⟩) :: (1, ⟨true, 1⟩) :: (2, ⟨true, 2⟩) :: tail,
            [], 3⟩
        = some ⟨⟨true,
              (0, ⟨true, 0⟩) :: (1, ⟨true, 1⟩) :: (2, ⟨true, 2⟩)
                :: (tail ++ [(3, ⟨true, 3⟩)]), [], 4⟩,
            [(0, 0, x), (1, 1, x)], some e⟩
      ∧ Signal (errEnv e p) 5 x
          ⟨false, [(0, ⟨false, 9⟩), (1, ⟨true, 0⟩), (2, ⟨true, 1⟩),
            (3, ⟨true, 2⟩)], [0], 4⟩
        = some ⟨⟨true,
              [(1, ⟨true, 0⟩), (2, ⟨true, 1⟩), (3, ⟨true, 2⟩),
                (4, ⟨true, 3⟩)], [], 5⟩,
            [(1, 0, x), (2, 1, x)], some e⟩ := by
  constructor
  · intro env fuel x s r e h herr
    refine ⟨signal_err env fuel x s r e h herr,
      signaled_Signal env fuel x s r h, ?_⟩
    intro u hu p hp hup t ht hteq
    have hasc := trace_ascending_Signal env fuel x s r h
    rw [Option.mem_def] at hu
    have hlast : (r.trace.map (fun t => t.1)).getLast? = some u.1 := by
      rw [List.getLast?_map, hu]
      rfl
    have hle := le_getLast_of_chain_lt (r.trace.map (fun t => t.1)) u.1
      hasc hlast t.1 (List.mem_map_of_mem _ ht)
    omega
  · exact fun _ _ _ _ => ⟨rfl, rfl⟩

/-- C7, witness: the general statement applied to a concrete erroring run
(two entries invoked, the second raising 42, one entry left uninvoked). -/
theorem evtC7_witness :
    (⟨true, [(0, ⟨true, 0⟩), (1, ⟨true, 1⟩), (2, ⟨true, 2⟩),
      (3, ⟨true, 3⟩)], [], 4⟩ : EventState).signaled = true :=
  (evtC7.1 (errEnv 42 []) 5 11
    ⟨false, [(0, ⟨true, 0⟩), (1, ⟨true, 1⟩), (2, ⟨true, 2⟩)], [], 3⟩
    ⟨⟨true, [(0, ⟨true, 0⟩), (1, ⟨true, 1⟩), (2, ⟨true, 2⟩),
      (3, ⟨true, 3⟩)], [], 4⟩, [(0, 0, 11), (1, 1, 11)], some 42⟩
    42 rfl rfl).2.1

/-- Callback environment with two do-nothing callbacks, for the connection
order scenario. -/
def ordEnv : List (List Act) := [[], []]

/-- C8: a completed `Signal` pass invokes entries in strictly ascending id
order (equal to connection order, since ids are allocated increasingly), and
in the concrete scenario connecting `f1` then `f2`, `Dispatch(5)` invokes
`f1(5)` then `f2(5)` in that order, and after disconnecting `f1`
`Dispatch(7)` invokes only `f2(7)`. -/
theorem evtC8 :
    (∀ (env : List (List Act)) (fuel : Nat) (x : Int) (s : EventState)
      (r : SigResult), Signal env fuel x s = some r →
      List.Chain' (fun a b : Int => a < b) (r.trace.map (fun t => t.1)))
    ∧ Signal ordEnv 5 5 (Connect (Connect initEvent 0).1 1).1
      = some ⟨⟨true, [(0, ⟨true, 0⟩), (1, ⟨true, 1⟩)], [], 2⟩,
          [(0, 0, 5), (1, 1, 5)], none⟩
    ∧ Signal ordEnv 5 7
        (Disconnect (⟨true, [(0, ⟨true, 0⟩), (1, ⟨true, 1⟩)], [], 2⟩ :
          EventState) 0)
      = some ⟨⟨true, [(1, ⟨true, 1⟩)], [], 2⟩, [(1, 1, 7)], none⟩ :=
  ⟨fun env fuel x s r h => trace_ascending_Signal env fuel x s r h, rfl, rfl⟩

/-- C8, witness: the ascending-order statement applied to the concrete
two-connection dispatch. -/
theorem evtC8_witness : List.Chain' (fun a b : Int => a < b) [0, 1] :=
  evtC8.1 ordEnv 5 5 (Connect (Connect initEvent 0).1 1).1
    ⟨⟨true, [(0, ⟨true, 0⟩), (1, ⟨true, 1⟩)], [], 2⟩,
      [(0, 0, 5), (1, 1, 5)], none⟩ rfl

/-- C9: `ConnectionCount` is the size of the entries map including entries
pending removal: 0 on the fresh event, 1 after one `Connect`, still 1 after
`Disconnect` of that id (which queues it), and 0 after the next `Signal`,
whose cleanup purges the pending entry. -/
theorem evtC9 :
    ConnectionCount initEvent = 0
    ∧ ConnectionCount (Connect initEvent 0).1 = 1
    ∧ ConnectionCount (Disconnect (Connect initEvent 0).1 0) = 1
    ∧ (Disconnect (Connect initEvent 0).1 0).connectionsToRemove = [0]
    ∧ Signal [] 5 0 (Disconnect (Connect initEvent 0).1 0)
        = some ⟨⟨true, [], [], 1⟩, [], none⟩
    ∧ ConnectionCount (⟨true, [], [], 1⟩ : EventState) = 0 :=
  ⟨rfl, rfl, rfl, rfl, rfl, rfl⟩

/-- C10: destroying a `Connection` whose event pointer is null or whose id is
negative performs no revocation: no `Disconnect` runs and the world is left
exactly as it was; the revoking branch runs only for a non-null pointer and a
non-negative id. -/
theorem evtC10 : ∀ (w : World) (c : ConnHandle),
    c.bound = false ∨ c.id < 0 → connDtor w c = some (w, c) :=
  fun w c h => connDtor_inert w c h

/-- C10, witness: destroying an unbound handle and a negative-id handle at
concrete inputs. -/
theorem evtC10_witness :
    connDtor ⟨true, initEvent⟩ ⟨false, 3⟩
        = some (⟨true, initEvent⟩, ⟨false, 3⟩)
    ∧ connDtor ⟨true, initEvent⟩ ⟨true, -2⟩
        = some (⟨true, initEvent⟩, ⟨true, -2⟩) :=
  ⟨evtC10 ⟨true, initEvent⟩ ⟨false, 3⟩ (Or.inl rfl),
   evtC10 ⟨true, initEvent⟩ ⟨true, -2⟩ (Or.inr (by decide))⟩
